import Mathlib

/-
Verification of PyTradeLib's minute-bar codec/ingestor
(src/pytradelib/data/providers/yahoo/minute.py) and of its sqlite-backed
store (src/pytradelab/db.py), as a shallow embedding.

Modelling conventions:
* Python `str` is modelled as `List Char` (`PyStr`).
* Python `float` is modelled as `ℚ`; `"%.2f"` formatting is modelled as
  rounding to the nearest hundredth (the source rounds the underlying
  binary double; on the two-decimal values exercised here the two agree).
* Naive `datetime` values are modelled by their epoch-second count, so
  `calendar.timegm(dt.timetuple())` and `datetime.datetime.fromtimestamp`
  are both the identity on that representation (the process is taken to
  run with a UTC local clock; the source has `FIXME: store in UTC`
  markers for exactly this assumption).
* A raised Python exception is modelled as `Except.error` carrying a
  `PyErr`; `sqlite3` row results are lists of `PyVal`.
-/

attribute [local semireducible] Rat.add Rat.mul Rat.inv Rat.sub Rat.ofScientific

inductive PyErr where
  | indexError
  | keyError
  | valueError
  | typeError
  | programmingError
  | operationalError
  | integrityError
  deriving DecidableEq, Repr

abbrev PyStr := List Char

instance {ε α : Type} [DecidableEq ε] [DecidableEq α] : DecidableEq (Except ε α) := fun x y =>
  match x, y with
  | .ok a, .ok b => if h : a = b then isTrue (by rw [h]) else isFalse (by simp [h])
  | .error a, .error b => if h : a = b then isTrue (by rw [h]) else isFalse (by simp [h])
  | .ok _, .error _ => isFalse (by simp)
  | .error _, .ok _ => isFalse (by simp)

/-- Python `s.startswith(p)` on our string representation. -/
def pyStartsWith (p s : PyStr) : Bool :=
  match p, s with
  | [], _ => true
  | _ :: _, [] => false
  | c :: ps, d :: ss => if c = d then pyStartsWith ps ss else false

/-- Python `str.split(sep)` for a one-character separator: splitting the
empty string gives `[""]`, and separators at the ends give empty parts,
exactly as in Python. -/
def pySplit (sep : Char) : PyStr → List PyStr
  | [] => [[]]
  | c :: rest =>
    match pySplit sep rest with
    | [] => [[]]
    | h :: t => if c = sep then [] :: h :: t else (c :: h) :: t

/-- Python `sep.join(parts)` for a one-character separator. -/
def pyJoin (sep : Char) : List PyStr → PyStr
  | [] => []
  | [p] => p
  | p :: ps => p ++ sep :: pyJoin sep ps

def isWsCh (c : Char) : Bool :=
  c = ' ' || c = '\n' || c = '\t' || c = '\r'

/-- Python `str.strip()`: whitespace removed from both ends. -/
def pyStrip (l : PyStr) : PyStr :=
  ((l.dropWhile isWsCh).reverse.dropWhile isWsCh).reverse

def digitChar : Nat → Char
  | 0 => '0'
  | 1 => '1'
  | 2 => '2'
  | 3 => '3'
  | 4 => '4'
  | 5 => '5'
  | 6 => '6'
  | 7 => '7'
  | 8 => '8'
  | _ => '9'

def isDigitCh (c : Char) : Bool :=
  48 ≤ c.toNat && c.toNat ≤ 57

def digitVal (c : Char) : Nat := c.toNat - 48

/-- Decimal rendering of a natural number, with explicit fuel so that the
definition is structural (the fuel `n + 1` always suffices). -/
def renderNatFuel : Nat → Nat → PyStr
  | 0, _ => []
  | f + 1, n =>
    if n < 10 then [digitChar n]
    else renderNatFuel f (n / 10) ++ [digitChar (n % 10)]

def renderNat (n : Nat) : PyStr := renderNatFuel (n + 1) n

def parseNatAux : Nat → PyStr → Option Nat
  | acc, [] => some acc
  | acc, c :: cs =>
    if isDigitCh c then parseNatAux (10 * acc + digitVal c) cs else none

/-- All-digit string to natural number; fails on the empty string. -/
def parseNatCh (l : PyStr) : Option Nat :=
  match l with
  | [] => none
  | _ :: _ => parseNatAux 0 l

/-- Python's `"%i"` / `str` rendering of an integer. -/
def renderInt (i : Int) : PyStr :=
  if i < 0 then '-' :: renderNat i.natAbs else renderNat i.natAbs

/-- Python `int(s)` on the (sign + digits) strings this code produces and
consumes; other spellings Python would accept (leading `+`, surrounding
whitespace, underscores) never occur on the modelled paths. -/
def pyIntParse (l : PyStr) : Option Int :=
  match l with
  | [] => none
  | c :: rest =>
    if c = '-' then (parseNatCh rest).map (fun n => -(n : Int))
    else (parseNatCh (c :: rest)).map (fun n => (n : Int))

/-- Magnitude part of Python `float(s)`: digits with an optional decimal
point, at least one digit overall (`float("1.")` and `float(".5")` are
legal, `float(".")` is not). -/
def pyFloatMag (l : PyStr) : Option ℚ :=
  match pySplit '.' l with
  | [a] => (parseNatCh a).map (fun n => (n : ℚ))
  | [a, b] =>
    if a.isEmpty && b.isEmpty then none
    else
      match (if a.isEmpty then some 0 else parseNatCh a),
            (if b.isEmpty then some 0 else parseNatCh b) with
      | some n, some f => some ((n : ℚ) + (f : ℚ) / (10 : ℚ) ^ b.length)
      | _, _ => none
  | _ => none

/-- Python `float(s)` restricted to the grammar above plus a sign
(exponent notation never occurs on the modelled paths). -/
def pyFloatParse (l : PyStr) : Option ℚ :=
  match l with
  | [] => none
  | c :: rest =>
    if c = '-' then (pyFloatMag rest).map (fun q => -q)
    else pyFloatMag (c :: rest)

/-- Integer truncation toward zero, as Python's `"%i"` applies to floats. -/
def truncQ (q : ℚ) : ℤ :=
  if 0 ≤ q then ⌊q⌋ else -⌊-q⌋

/-- Rounding to two decimal places, the value denoted by `"%.2f" % q`. -/
def round2 (q : ℚ) : ℚ := ((round ((100 : ℚ) * q) : ℤ) : ℚ) / 100

def render2Core (a : Nat) : PyStr :=
  renderNat (a / 100) ++ '.' :: digitChar (a % 100 / 10) :: [digitChar (a % 100 % 10)]

/-- Python `"%.2f" % q` (for a value rounding to negative zero the source
prints `-0.00` where this prints `0.00`; the two parse to the same float,
which is all the code ever does with the rendering). -/
def render2 (q : ℚ) : PyStr :=
  let m : ℤ := round ((100 : ℚ) * q)
  if m < 0 then '-' :: render2Core m.natAbs else render2Core m.natAbs

/- ===== Bar values and the row codec =====
   Source: src/pytradelib/data/providers/yahoo/minute.py,
   YahooFrequencyProvider.row_to_bar / bar_to_row. -/

/-- Modelled from the spec: the `pytradelib.bar` module is not under src/;
per §3 a `Bar` carries `{datetime, open, high, low, close, volume,
adjusted_close}`. The naive datetime is represented by its epoch-second
count. -/
structure Bar where
  date_time : Int
  open_ : ℚ
  high : ℚ
  low : ℚ
  close : ℚ
  volume : ℚ
  adj_close : ℚ
  deriving DecidableEq, Repr

/-- The OHLC/volume invariants of §3: `low ≤ {open, close, high}`,
`high ≥ {open, close, low}` and `volume ≥ 0`. -/
def barOkQ (o h l c v : ℚ) : Prop :=
  l ≤ o ∧ l ≤ c ∧ l ≤ h ∧ o ≤ h ∧ c ≤ h ∧ 0 ≤ v

instance (o h l c v : ℚ) : Decidable (barOkQ o h l c v) := by
  unfold barOkQ; infer_instance

def barOk (b : Bar) : Prop :=
  barOkQ b.open_ b.high b.low b.close b.volume

instance (b : Bar) : Decidable (barOk b) := by
  unfold barOk; infer_instance

/-- The text of the AssertionError message raised by `bar.Bar.__init__`
(its exact wording is immaterial: `row_to_bar` returns `str(e)` as data). -/
def assertMsg : PyStr := "invalid bar values".toList

/-- Modelled from the spec: `bar.Bar(...)` (not under src/) validates the
§3 invariants in its constructor and raises AssertionError on violation;
`row_to_bar` catches that and returns the message string. -/
def mkBar (dt : Int) (o h l c v adj : ℚ) : Except PyStr Bar :=
  if barOkQ o h l c v then .ok ⟨dt, o, h, l, c, v, adj⟩ else .error assertMsg

/-- Modelled from the spec: `settings.DATE_FORMAT` (not under src/) is a
configured textual date pattern; `strftime` with it is modelled as an
injective rendering of the epoch-second count that no plain integer
string collides with. -/
def strftimeDF (n : Int) : PyStr := 'D' :: renderInt n

/-- Modelled from the spec: `datetime.strptime(s, settings.DATE_FORMAT)`,
the partial inverse of `strftimeDF`; any other string raises ValueError. -/
def strptimeDF (s : PyStr) : Except PyErr Int :=
  match s with
  | 'D' :: rest =>
    match pyIntParse rest with
    | some n => .ok n
    | none => .error .valueError
  | _ => .error .valueError

def getCol (cols : List PyStr) (i : Nat) : Except PyErr PyStr :=
  match cols.get? i with
  | some c => .ok c
  | none => .error .indexError

def pyFloatE (l : PyStr) : Except PyErr ℚ :=
  match pyFloatParse l with
  | some q => .ok q
  | none => .error .valueError

/-- Field parsing of `row_to_bar`: split on commas, then
`[timestamp, close, high, low, open, volume]` in the provider's wire
order (close before open). The timestamp first tries `int(...)`
(`datetime.fromtimestamp` is the identity here) and falls back to
`strptime` on ValueError. Missing columns raise IndexError and bad
numerics ValueError, both propagating past `row_to_bar`. -/
def parseBarFields (row : PyStr) : Except PyErr (Int × ℚ × ℚ × ℚ × ℚ × ℚ) := do
  let cols := pySplit ',' row
  let c0 ← getCol cols 0
  let date ← match pyIntParse c0 with
    | some n => Except.ok n
    | none => strptimeDF c0
  let close ← pyFloatE (← getCol cols 1)
  let high ← pyFloatE (← getCol cols 2)
  let low ← pyFloatE (← getCol cols 3)
  let open_ ← pyFloatE (← getCol cols 4)
  let volume ← pyFloatE (← getCol cols 5)
  pure (date, close, high, low, open_, volume)

inductive RowRes where
  | bar (b : Bar)
  | malformed (msg : PyStr)
  deriving DecidableEq, Repr

/-- `row_to_bar`: parse the six fields, then build
`bar.Bar(date, open_, high, low, close, volume, close)` — note the
adjusted-close argument is the parsed close. An AssertionError from the
constructor is caught and its message returned as data. -/
def row_to_bar (row : PyStr) : Except PyErr RowRes :=
  match parseBarFields row with
  | .error e => .error e
  | .ok (dt, close, high, low, open_, volume) =>
    match mkBar dt open_ high low close volume close with
    | .ok b => .ok (.bar b)
    | .error m => .ok (.malformed m)

/-- `bar_to_row`: `"%i" % timegm(...)`, the four prices through `"%.2f"`
(wire order close, high, low, open), and `"%i" % volume`, joined by
commas. -/
def bar_to_row (b : Bar) : PyStr :=
  pyJoin ',' [renderInt b.date_time, render2 b.close, render2 b.high,
    render2 b.low, render2 b.open_, renderInt (truncQ b.volume)]

/- ===== The minute-data ingestor =====
   Source: src/pytradelib/data/providers/yahoo/minute.py,
   YahooFrequencyProvider.process_downloaded_data. -/

def errTok : PyStr := "error".toList
def volTok : PyStr := "volume".toList
def msgTok : PyStr := "message:".toList

/-- Modelled from the spec: `utils.symbol_from_file_path` is not under
src/ and §4.4 says to treat the source identifier as an opaque key, so
the extraction is the identity. It only feeds log messages. -/
def symbolFromFilePath (p : PyStr) : PyStr := p

def linesOf (data : PyStr) : List PyStr := pySplit '\n' (pyStrip data)

/-- The header/error scan: walk the lines; a line starting with `error`
sets the error flag and reads the next line's text after the
`message:` prefix (IndexError when there is no next line); a line
starting with `volume` chops everything up to and including itself and
stops the scan. Returns (error flag, chopped tail if a volume line was
hit, collected error messages). -/
def scanHeader : List PyStr → Bool → List PyStr → Except PyErr (Bool × Option (List PyStr) × List PyStr)
  | [], err, msgs => .ok (err, none, msgs)
  | r :: rest, err, msgs =>
    if pyStartsWith errTok r then
      match rest with
      | [] => .error .indexError
      | next :: _ => scanHeader rest true (msgs ++ [next.drop msgTok.length])
    else if pyStartsWith volTok r then .ok (err, some rest, msgs)
    else scanHeader rest err msgs

/-- One step of the date-conversion loop: reparse the leading
epoch-seconds field and replace it by its `DATE_FORMAT` rendering. -/
def convertRow (r : PyStr) : Option PyStr :=
  match pySplit ',' r with
  | [] => none
  | c0 :: rest => (pyIntParse c0).map (fun n => pyJoin ',' (strftimeDF n :: rest))

/-- The date-conversion loop; the source wraps the whole loop in one
`try`, so a single bad row abandons the entire symbol-day. -/
def convertDates : List PyStr → Option (List PyStr)
  | [] => some []
  | r :: rs =>
    match convertRow r with
    | none => none
    | some r2 => (convertDates rs).map (fun l => r2 :: l)

/-- Wall-clock time of day in seconds; the session test is the source's
strict `datetime.time(9, 30) < now < datetime.time(16)`. -/
def inSession (now : Nat) : Bool :=
  decide (9 * 3600 + 30 * 60 < now) && decide (now < 16 * 3600)

/-- The live-market withholding step: with more than one row and the
clock strictly inside the session window, drop the final row. -/
def withholdLive (now : Nat) (rows : List PyStr) : List PyStr :=
  if 1 < rows.length ∧ inSession now = true then rows.dropLast else rows

inductive DayOut where
  | failDownload (msgs : List PyStr)
  | failDate
  | emit (rows : List PyStr)
  deriving DecidableEq, Repr

/-- Processing of one `(data, file_path)` pair, up to the yield. -/
def processOneDay (now : Nat) (data : PyStr) : Except PyErr DayOut :=
  match scanHeader (linesOf data) false [] with
  | .error e => .error e
  | .ok (true, _, msgs) => .ok (.failDownload msgs)
  | .ok (false, chop, _) =>
    match convertDates (chop.getD (linesOf data)) with
    | none => .ok .failDate
    | some rs => .ok (.emit (withholdLive now rs))

/-- The rows a symbol-day contributes just before the withholding step
(`none` when the day is skipped for a download error or date failure). -/
def cleanedRows (data : PyStr) : Option (List PyStr) :=
  match scanHeader (linesOf data) false [] with
  | .ok (false, chop, _) => convertDates (chop.getD (linesOf data))
  | _ => none

def fmtDownloadErr (sym msg : PyStr) : PyStr :=
  "error downloading minute data for ".toList ++ sym ++ ": ".toList ++ msg

/-- The date-failure print (the exception text `str(e)` is omitted; only
the fact that a failure line is recorded matters here). -/
def fmtDateErr (sym : PyStr) : PyStr :=
  "error converting date for ".toList ++ sym

/-- `process_downloaded_data`, returning the yielded
`(rows, file_path)` pairs together with the printed failure records.
The source is a generator whose yields precede a raised IndexError; the
`Except` model keeps the exception and drops the prefix, which agrees
with the source everywhere the theorems below evaluate it. -/
def process_downloaded_data (now : Nat) :
    List (PyStr × PyStr) → Except PyErr (List (List PyStr × PyStr) × List PyStr)
  | [] => .ok ([], [])
  | (data, fp) :: rest =>
    match processOneDay now data with
    | .error e => .error e
    | .ok (.failDownload msgs) =>
      (process_downloaded_data now rest).map
        (fun r => (r.1, msgs.map (fmtDownloadErr (symbolFromFilePath fp)) ++ r.2))
    | .ok .failDate =>
      (process_downloaded_data now rest).map
        (fun r => (r.1, fmtDateErr (symbolFromFilePath fp) :: r.2))
    | .ok (.emit rows) =>
      (process_downloaded_data now rest).map
        (fun r => ((rows, fp) :: r.1, r.2))

/- ===== The sqlite-backed store =====
   Source: src/pytradelab/db.py, class Database. -/

/-- A Python value as it appears in the dict batches and sqlite rows. -/
inductive PyVal where
  | vstr (s : PyStr)
  | vint (n : Int)
  | vrat (q : ℚ)
  deriving DecidableEq, Repr

/-- A Python dict, modelled as an insertion-ordered association list with
unique keys (CPython 2's hash ordering differs, but no modelled path
depends on which of the orders is used). -/
abbrev PyDict := List (PyVal × PyVal)

def dGet (d : PyDict) (k : PyVal) : Option PyVal :=
  match d with
  | [] => none
  | (k2, v) :: rest => if k2 = k then some v else dGet rest k

def dKeys (d : PyDict) : List PyVal := d.map (fun e => e.1)

def dVals (d : PyDict) : List PyVal := d.map (fun e => e.2)

def dRemove (d : PyDict) (k : PyVal) : PyDict :=
  d.filter (fun e => !(e.1 == k))

def dSet (d : PyDict) (k v : PyVal) : PyDict :=
  match d with
  | [] => [(k, v)]
  | (k2, v2) :: rest => if k2 = k then (k2, v) :: rest else (k2, v2) :: dSet rest k v

/-- Python `d.pop(key)` with no default: KeyError when absent. -/
def dPop (d : PyDict) (k : PyVal) : Except PyErr (PyVal × PyDict) :=
  match dGet d k with
  | some v => .ok (v, dRemove d k)
  | none => .error .keyError

def kNameKey : PyVal := .vstr ("name".toList)
def kSectorIdCol : PyVal := .vstr ("sector_id".toList)
def kSymbolKey : PyVal := .vstr ("symbol".toList)
def kIndustryKey : PyVal := .vstr ("industry".toList)
def kExchangeKey : PyVal := .vstr ("exchange".toList)
def kSectorKey : PyVal := .vstr ("sector".toList)
def kIpoDateKey : PyVal := .vstr ("ipo_date".toList)
def kNewestDateKey : PyVal := .vstr ("newest_date".toList)
def kSymbolIdCol : PyVal := .vstr ("symbol_id".toList)

/-- The four tables; the source interpolates the literal table name into
the SQL text, which this embedding carries as an enumeration. -/
inductive TableId where
  | sector
  | industry
  | symbolT
  | statsT
  deriving DecidableEq, Repr

/-- The store state: the `sector` table as `(sector_id, name)` rows, the
`industry` table as `(industry_id, name, sector_id)` rows, the `symbol`
and `stats` tables as generic column assignments, plus the AUTOINCREMENT
sequences (sqlite never reuses a value of such a sequence, which is what
makes REPLACE reassign ids). -/
structure DB where
  sector : List (Nat × PyStr)
  industry : List (Nat × PyVal × PyVal)
  symbolRows : List PyDict
  statsRows : List PyDict
  nextSectorId : Nat
  nextIndustryId : Nat
  deriving DecidableEq, Repr

/-- The state `_create_tables` leaves behind for a fresh file: four empty
tables, AUTOINCREMENT sequences starting at 1. -/
def connectFresh : DB := ⟨[], [], [], [], 1, 1⟩

/-- `INSERT OR REPLACE INTO sector (name) VALUES (?)`: a conflicting row
(UNIQUE name) is deleted and the new row inserted with a fresh
AUTOINCREMENT id. -/
def sectorReplace (st : DB) (v : PyStr) : DB :=
  { st with
    sector := st.sector.filter (fun r => !(r.2 == v)) ++ [(st.nextSectorId, v)],
    nextSectorId := st.nextSectorId + 1 }

/-- `INSERT OR REPLACE INTO industry (name, sector_id) VALUES (?,?)`. -/
def industryReplace (st : DB) (nm sid : PyVal) : DB :=
  { st with
    industry := st.industry.filter (fun r => !(r.2.1 == nm)) ++
      [(st.nextIndustryId, nm, sid)],
    nextIndustryId := st.nextIndustryId + 1 }

def symbolSchemaCols : List PyVal :=
  [kSymbolIdCol, kSymbolKey, kNameKey, .vstr ("industry_id".toList), kExchangeKey,
    kIpoDateKey, kNewestDateKey]

def statsSchemaCols : List PyVal :=
  [kSymbolIdCol, .vstr ("last_trade_datetime".toList), .vstr ("last_trade_price".toList),
    .vstr ("last_trade_volume".toList), .vstr ("year_high".toList), .vstr ("year_low".toList),
    .vstr ("ma_50".toList), .vstr ("ma_200".toList), .vstr ("market_cap".toList),
    .vstr ("average_daily_volume".toList), .vstr ("dividend_pay_date".toList),
    .vstr ("ex_dividend_date".toList), .vstr ("dividend_share".toList),
    .vstr ("dividend_yield".toList), .vstr ("book_value".toList), .vstr ("ebitda".toList),
    .vstr ("earnings_per_share".toList), .vstr ("peg_ratio".toList), .vstr ("pe_ratio".toList),
    .vstr ("price_per_book".toList), .vstr ("price_per_sales".toList),
    .vstr ("short_ratio".toList)]

/-- One `INSERT OR REPLACE` row against a table. The sector and industry
calls in the source always bind exactly the column layouts matched here
(their dicts are built literally in `insert_or_update_sectors` /
`_industries`); any other layout is an sqlite error. The symbol and
stats branches model REPLACE keyed on their unique column for arbitrary
schema-valid layouts (no public entry point reaches them: every path
into them raises earlier, as proved below). -/
def insertRow (st : DB) (t : TableId) (cols vals : List PyVal) : Except PyErr DB :=
  match t with
  | .sector =>
    match cols, vals with
    | [k], [PyVal.vstr v] => if k = kNameKey then .ok (sectorReplace st v) else .error .operationalError
    | _, _ => .error .operationalError
  | .industry =>
    match cols, vals with
    | [k1, k2], [nm, sid] =>
      if k1 = kNameKey ∧ k2 = kSectorIdCol then .ok (industryReplace st nm sid)
      else .error .operationalError
    | _, _ => .error .operationalError
  | .symbolT =>
    if cols.all (fun c => symbolSchemaCols.contains c) then
      let row : PyDict := List.zip cols vals
      match dGet row kSymbolKey with
      | some v =>
        .ok { st with symbolRows :=
          st.symbolRows.filter (fun r => !(dGet r kSymbolKey == some v)) ++ [row] }
      | none => .error .integrityError
    else .error .operationalError
  | .statsT =>
    if cols.all (fun c => statsSchemaCols.contains c) then
      let row : PyDict := List.zip cols vals
      match dGet row kSymbolIdCol with
      | some v =>
        .ok { st with statsRows :=
          st.statsRows.filter (fun r => !(dGet r kSymbolIdCol == some v)) ++ [row] }
      | none => .ok { st with statsRows := st.statsRows ++ [row] }
    else .error .operationalError

/-- `cursor.executemany`: every dict's values are bound positionally
against the column list taken from the first dict; a binding-count
mismatch is a ProgrammingError. -/
def execRows (t : TableId) (cols : List PyVal) : DB → List PyDict → Except PyErr DB
  | st, [] => .ok st
  | st, d :: rest =>
    if (dVals d).length = cols.length then
      match insertRow st t cols (dVals d) with
      | .ok st2 => execRows t cols st2 rest
      | .error e => .error e
    else .error .programmingError

def popKeyAll : PyDict → List PyVal → Except PyErr PyDict
  | d, [] => .ok d
  | d, k :: ks =>
    match dPop d k with
    | .ok (_, d2) => popKeyAll d2 ks
    | .error e => .error e

def popRemoveKeys : List PyDict → List PyVal → Except PyErr (List PyDict)
  | [], _ => .ok []
  | d :: rest, ks =>
    match popKeyAll d ks with
    | .ok d2 => (popRemoveKeys rest ks).map (fun l => d2 :: l)
    | .error e => .error e

/-- `Database.__insert_or_update`: pop the remove_keys from every dict
(`if remove_keys:` — the empty list is falsy, so nothing is popped
then), take the column list from the first dict (IndexError on an empty
batch), and execute the multi-row INSERT OR REPLACE. -/
def insert_or_update_core (st : DB) (t : TableId) (dicts : List PyDict)
    (removeKeys : List PyVal) : Except PyErr DB :=
  match (if removeKeys.isEmpty then .ok dicts else popRemoveKeys dicts removeKeys :
      Except PyErr (List PyDict)) with
  | .error e => .error e
  | .ok dicts2 =>
    match dicts2 with
    | [] => .error .indexError
    | d0 :: _ => execRows t (dKeys d0) st dicts2

def mkSectorDict (s : PyStr) : PyDict := [(kNameKey, PyVal.vstr s)]

/-- `Database.insert_or_update_sectors` on a list argument (the
`isinstance` promotion of a bare string is vacuous for lists). -/
def insert_or_update_sectors (st : DB) (sectors : List PyStr) : Except PyErr DB :=
  insert_or_update_core st .sector (sectors.map mkSectorDict) []

/-- `SELECT sector_id FROM sector WHERE name=?`. -/
def selectSectorIdRows (st : DB) (name : PyVal) : List (List PyVal) :=
  (st.sector.filter (fun r => PyVal.vstr r.2 == name)).map (fun r => [PyVal.vint (r.1 : Int)])

/-- `Database._get_sector_id`: `_select_row(...)[0]` — IndexError when no
row matches (this is what the spec calls `ReferentNotFound`). -/
def db_get_sector_id (st : DB) (s : PyVal) : Except PyErr PyVal :=
  match selectSectorIdRows st s with
  | [] => .error .indexError
  | row :: _ =>
    match row with
    | v :: _ => .ok v
    | [] => .error .indexError

/-- Python `dict(pairs)` on a list of string pairs. -/
def pyDictOfPairs : PyDict → List (PyStr × PyStr) → PyDict
  | acc, [] => acc
  | acc, (a, b) :: rest => pyDictOfPairs (dSet acc (.vstr a) (.vstr b)) rest

/-- Tuple unpacking `i, s = k` of a dict KEY: a string key unpacks only
when its length is exactly 2 (into its two characters, ValueError
otherwise); a non-iterable key is a TypeError. -/
def pyUnpack2 (v : PyVal) : Except PyErr (PyVal × PyVal) :=
  match v with
  | .vstr [a, b] => .ok (.vstr [a], .vstr [b])
  | .vstr _ => .error .valueError
  | _ => .error .typeError

/-- The list comprehension of `insert_or_update_industries`: note the
source iterates `for i, s in industry_sectors` over the DICT — i.e. over
its keys — not over `.items()`. -/
def industryDictsOfKeys (st : DB) : List PyVal → Except PyErr (List PyDict)
  | [] => .ok []
  | k :: ks =>
    match pyUnpack2 k with
    | .error e => .error e
    | .ok (i, s) =>
      match db_get_sector_id st s with
      | .error e => .error e
      | .ok sid =>
        match industryDictsOfKeys st ks with
        | .error e => .error e
        | .ok rest => .ok ([(kNameKey, i), (kSectorIdCol, sid)] :: rest)

/-- `Database.insert_or_update_industries` on a list-of-pairs argument
(converted by `dict(...)` first, as in the source). -/
def insert_or_update_industries (st : DB) (industry_sectors : List (PyStr × PyStr)) :
    Except PyErr DB :=
  match industryDictsOfKeys st (dKeys (pyDictOfPairs [] industry_sectors)) with
  | .error e => .error e
  | .ok dicts => insert_or_update_core st .industry dicts []

/-- Python `dict(list_of_dicts)`: each element is itself iterated for a
key/value pair, so a dict element contributes the pair of its two keys
when it has exactly two, and raises ValueError otherwise. -/
def pyDictOfDictsAux : PyDict → List PyDict → Except PyErr PyDict
  | acc, [] => .ok acc
  | acc, d :: rest =>
    match dKeys d with
    | [k1, k2] => pyDictOfDictsAux (dSet acc k1 k2) rest
    | _ => .error .valueError

/-- `Database.insert_or_update_symbols` on a list argument: the
`dict(symbol_dicts)` conversion collapses the batch into a single bogus
string-keyed mapping, after which `symbol_dicts[0]` raises KeyError (the
integer key 0 is never among the string keys). Were a key 0 present its
value would be a string and the subsequent `'industry' in d` /
`d.pop(...)` protocol would fail on it, modelled as TypeError. -/
def insert_or_update_symbols (_st : DB) (symbol_dicts : List PyDict) : Except PyErr DB :=
  match pyDictOfDictsAux [] symbol_dicts with
  | .error e => .error e
  | .ok conv =>
    match dGet conv (PyVal.vint 0) with
    | none => .error .keyError
    | some _ => .error .typeError

def moveSymbolKeys : PyDict → PyDict → List PyVal → PyDict × PyDict
  | new_d, d, [] => (new_d, d)
  | new_d, d, k :: ks =>
    match dGet d k with
    | some v => moveSymbolKeys (dSet new_d k v) (dRemove d k) ks
    | none => moveSymbolKeys new_d d ks

/-- The splitting loop of `insert_or_update_stats`: each record must have
a `symbol` key (KeyError otherwise, and note it is read but NOT popped),
and `name`/`industry`/`exchange` are moved out into the symbol dict. -/
def statsSplit : List PyDict → Except PyErr (List PyDict × List PyDict)
  | [] => .ok ([], [])
  | d :: rest =>
    match dGet d kSymbolKey with
    | none => .error .keyError
    | some sv =>
      let p := moveSymbolKeys [(kSymbolKey, sv)] d [kNameKey, kIndustryKey, kExchangeKey]
      match statsSplit rest with
      | .error e => .error e
      | .ok (sds, sts) => .ok (p.1 :: sds, p.2 :: sts)

/-- `Database.insert_or_update_stats`: split off the symbol-table keys,
upsert symbols first, then upsert the remainder into stats with
`sector`, `ipo_date`, `newest_date` popped. -/
def insert_or_update_stats (st : DB) (stats : List PyDict) : Except PyErr DB :=
  match statsSplit stats with
  | .error e => .error e
  | .ok (symbol_dicts, stats2) =>
    match insert_or_update_symbols st symbol_dicts with
    | .error e => .error e
    | .ok st2 => insert_or_update_core st2 .statsT stats2 [kSectorKey, kIpoDateKey, kNewestDateKey]

/-- `SELECT name FROM sector` row set, in rowid order. -/
def selectSectorNameRows (st : DB) : List (List PyVal) :=
  st.sector.map (fun r => [PyVal.vstr r.2])

/-- `SELECT name FROM industry` row set, in rowid order. -/
def selectIndustryNameRows (st : DB) : List (List PyVal) :=
  st.industry.map (fun r => [r.2.1])

/-- `Database.get_sectors`: `self._select_row("SELECT name FROM sector")`
— note `_select_row`, which returns `rows[0]`, the FIRST row only, and
raises IndexError on an empty table. -/
def get_sectors (st : DB) : Except PyErr (List PyVal) :=
  match selectSectorNameRows st with
  | [] => .error .indexError
  | row :: _ => .ok row

/-- `Database.get_industries`, same `_select_row` shape. -/
def get_industries (st : DB) : Except PyErr (List PyVal) :=
  match selectIndustryNameRows st with
  | [] => .error .indexError
  | row :: _ => .ok row

/-- The `name` column of the sector table in row order (what a full
projection `SELECT name FROM sector` denotes). -/
def sectorNames (st : DB) : List PyStr := st.sector.map (fun r => r.2)

/- ===== Claim-statement vocabulary and concrete instances ===== -/

/-- The bar the round-trip claim expects back from `decode ∘ encode`:
price fields rounded to two decimals, volume truncated to an integer,
timestamp unchanged (it is already integral). -/
def roundBar (b : Bar) : Bar :=
  ⟨b.date_time, round2 b.open_, round2 b.high, round2 b.low, round2 b.close,
    ((truncQ b.volume : ℤ) : ℚ), round2 b.adj_close⟩

/-- A valid bar whose adjusted close differs from its close. -/
def bC1 : Bar := ⟨1000000000, 1, 2, 1/2, 3/2, 100, 3/4⟩

/-- What `row_to_bar (bar_to_row bC1)` actually produces: the adjusted
close comes back as the close. -/
def decodedBarC1 : Bar := ⟨1000000000, 1, 2, 1/2, 3/2, 100, 3/2⟩

/-- A valid bar with `adj_close = close`, for the round-trip witness. -/
def bW : Bar := ⟨1000000000, 1, 2, 1/2, 3/2, 201/2, 3/2⟩

def techName : PyStr := "Technology".toList
def energyName : PyStr := "Energy".toList
def softwareName : PyStr := "Software".toList

/-- The store after `insert_or_update_sectors(["Technology"])` on a fresh
file. -/
def dbTech : DB := ⟨[(1, techName)], [], [], [], 2, 1⟩

/-- The store after `insert_or_update_sectors(["Technology", "Energy"])`
on a fresh file. -/
def dbTE : DB := ⟨[(1, techName), (2, energyName)], [], [], [], 3, 1⟩

/-- The store after upserting `["Technology"]` twice on a fresh file: the
REPLACE deleted row 1 and inserted the name again under the next
AUTOINCREMENT id. -/
def dbTech2 : DB := ⟨[(2, techName)], [], [], [], 3, 1⟩

/-- The claim C2 example record `{symbol: "ABC", name: "Abc Inc",
pe_ratio: 10.0}`. -/
def statsRecABC : PyDict :=
  [(kSymbolKey, .vstr ("ABC".toList)), (kNameKey, .vstr ("Abc Inc".toList)),
    (.vstr ("pe_ratio".toList), .vrat 10)]

/-- Membership on name lists, kept as an explicit Boolean recursion. -/
def memB (x : PyStr) : List PyStr → Bool
  | [] => false
  | y :: ys => if y = x then true else memB x ys

/-- Keep-the-last-occurrence deduplication: the name column the sector
table shows for a freshly replayed batch. -/
def dlast : List PyStr → List PyStr
  | [] => []
  | n :: rest => if memB n rest then dlast rest else n :: dlast rest

/-- How many sector rows carry a given name. -/
def countName (st : DB) (n : PyStr) : Nat :=
  (st.sector.filter (fun r => r.2 == n)).length

/-- The claim C7 example payload. -/
def payloadErr : PyStr := "error\nmessage:rate limited\n".toList

/-- A payload whose `error` line is the final line. -/
def payloadErrLast : PyStr := "x\nerror".toList

/-- The spec §8 header-stripping example payload. -/
def payloadGood : PyStr := "junk\nvolume,date\n1000000000,1.0,2.0,0.5,1.5,100\n".toList

/-- A two-row payload for the withholding witness. -/
def payloadC8 : PyStr := "volume\n1000,1,2,1,1,5\n2000,1,2,1,1,5".toList

def rowsC8 : List PyStr := ["D1000,1,2,1,1,5".toList, "D2000,1,2,1,1,5".toList]

/-- A header-less payload whose second line has a non-numeric leading
field. -/
def payloadC10 : PyStr := "1000,1.0,2.0,0.5,1.5,100\nbad,1.0\n".toList

/-- Whether an `Except` computation succeeded. -/
def isOkE {ε α : Type} : Except ε α → Bool
  | .ok _ => true
  | .error _ => false

/- ===== Lemmas: decimal rendering and parsing ===== -/

theorem digitChar_isDigit (d : Nat) (hd : d < 10) :
    isDigitCh (digitChar d) = true ∧ digitVal (digitChar d) = d := by
  interval_cases d <;> exact ⟨by decide, by decide⟩

theorem renderNatFuel_ne_nil (f n : Nat) (h : n < f) : renderNatFuel f n ≠ [] := by
  cases f with
  | zero => omega
  | succ f =>
    unfold renderNatFuel
    split <;> simp

theorem renderNatFuel_digits (f : Nat) : ∀ n c, c ∈ renderNatFuel f n → isDigitCh c = true := by
  induction f with
  | zero => intro n c h; simp [renderNatFuel] at h
  | succ f ih =>
    intro n c h
    unfold renderNatFuel at h
    by_cases h10 : n < 10
    · rw [if_pos h10] at h
      simp only [List.mem_singleton] at h
      subst h
      exact (digitChar_isDigit n h10).1
    · rw [if_neg h10] at h
      rcases List.mem_append.mp h with h | h
      · exact ih _ _ h
      · simp only [List.mem_singleton] at h
        subst h
        exact (digitChar_isDigit (n % 10) (by omega)).1

theorem renderNat_digits (n : Nat) (c : Char) (h : c ∈ renderNat n) : isDigitCh c = true :=
  renderNatFuel_digits (n + 1) n c h

theorem parseNatAux_append (acc : Nat) (l1 l2 : PyStr) :
    parseNatAux acc (l1 ++ l2) =
      match parseNatAux acc l1 with
      | some a => parseNatAux a l2
      | none => none := by
  induction l1 generalizing acc with
  | nil => simp [parseNatAux]
  | cons c cs ih =>
    simp only [List.cons_append, parseNatAux]
    cases hc : isDigitCh c with
    | true => simp [hc, ih]
    | false => simp [hc]

theorem parseNatAux_renderNatFuel (f : Nat) : ∀ n acc, n < f →
    parseNatAux acc (renderNatFuel f n) =
      some (acc * 10 ^ (renderNatFuel f n).length + n) := by
  induction f with
  | zero => intro n acc h; omega
  | succ f ih =>
    intro n acc h
    unfold renderNatFuel
    by_cases h10 : n < 10
    · rw [if_pos h10]
      have hd := digitChar_isDigit n h10
      simp [parseNatAux, hd.1, hd.2]
      omega
    · rw [if_neg h10]
      rw [parseNatAux_append]
      have h2 : n / 10 < f := by omega
      rw [ih (n / 10) acc h2]
      have hd := digitChar_isDigit (n % 10) (by omega)
      simp only [parseNatAux, hd.1, if_pos, hd.2, List.length_append, List.length_singleton]
      congr 1
      have hdm : 10 * (n / 10) + n % 10 = n := Nat.div_add_mod n 10
      ring_nf
      linarith [hdm]

theorem parseNatCh_renderNat (n : Nat) : parseNatCh (renderNat n) = some n := by
  have hne : renderNat n ≠ [] := renderNatFuel_ne_nil (n + 1) n (by omega)
  have h : parseNatAux 0 (renderNat n) = some (0 * 10 ^ (renderNat n).length + n) :=
    parseNatAux_renderNatFuel (n + 1) n 0 (by omega)
  rw [zero_mul, zero_add] at h
  unfold parseNatCh
  cases hr : renderNat n with
  | nil => exact absurd hr hne
  | cons c cs =>
    rw [hr] at h
    simpa using h

theorem head_renderNat_not_neg (n : Nat) (c : Char) (cs : PyStr)
    (hr : renderNat n = c :: cs) : ¬ c = '-' := by
  intro he
  have hd : isDigitCh c = true := renderNat_digits n c (by rw [hr]; exact List.mem_cons_self c cs)
  subst he
  simp [isDigitCh] at hd

theorem pyIntParse_renderInt (i : Int) : pyIntParse (renderInt i) = some i := by
  unfold renderInt
  by_cases hneg : i < 0
  · rw [if_pos hneg]
    have hp := parseNatCh_renderNat i.natAbs
    simp [pyIntParse, hp]
    rw [abs_of_neg hneg]
    ring
  · rw [if_neg hneg]
    cases hr : renderNat i.natAbs with
    | nil => exact absurd hr (renderNatFuel_ne_nil (i.natAbs + 1) i.natAbs (Nat.lt_succ_self _))
    | cons c cs =>
      have hcne : ¬ c = '-' := head_renderNat_not_neg i.natAbs c cs hr
      have hp : parseNatCh (c :: cs) = some i.natAbs := by
        rw [← hr]
        exact parseNatCh_renderNat i.natAbs
      simp [pyIntParse, hcne, hp]
      omega

theorem pySplit_cons (sep c : Char) (rest : PyStr) :
    pySplit sep (c :: rest) =
      match pySplit sep rest with
      | [] => [[]]
      | h :: t => if c = sep then [] :: h :: t else (c :: h) :: t := rfl

theorem pySplit_ne_nil (sep : Char) (l : PyStr) : pySplit sep l ≠ [] := by
  cases l with
  | nil => simp [pySplit]
  | cons c rest =>
    unfold pySplit
    cases pySplit sep rest with
    | nil => simp
    | cons h t =>
      dsimp only
      split <;> simp

theorem pySplit_no_sep (sep : Char) (l : PyStr) (h : sep ∉ l) : pySplit sep l = [l] := by
  induction l with
  | nil => rfl
  | cons c rest ih =>
    have hc : ¬ c = sep := fun he => h (he ▸ List.mem_cons_self c rest)
    have hrest : sep ∉ rest := fun hm => h (List.mem_cons_of_mem _ hm)
    unfold pySplit
    rw [ih hrest]
    simp [hc]

theorem pySplit_append (sep : Char) (p rest : PyStr) (hp : sep ∉ p) :
    pySplit sep (p ++ sep :: rest) = p :: pySplit sep rest := by
  induction p with
  | nil =>
    simp only [List.nil_append]
    rw [pySplit_cons]
    cases hr : pySplit sep rest with
    | nil => exact absurd hr (pySplit_ne_nil sep rest)
    | cons h t => simp
  | cons c p ih =>
    have hc : ¬ c = sep := fun he => hp (he ▸ List.mem_cons_self c p)
    have hp2 : sep ∉ p := fun hm => hp (List.mem_cons_of_mem _ hm)
    simp only [List.cons_append]
    rw [pySplit_cons, ih hp2]
    simp [hc]

theorem pySplit_pyJoin (sep : Char) (parts : List PyStr) (hne : parts ≠ [])
    (hsep : ∀ p ∈ parts, sep ∉ p) : pySplit sep (pyJoin sep parts) = parts := by
  induction parts with
  | nil => exact absurd rfl hne
  | cons p ps ih =>
    cases ps with
    | nil => exact pySplit_no_sep sep p (hsep p (List.mem_cons_self _ _))
    | cons q qs =>
      rw [show pyJoin sep (p :: q :: qs) = p ++ sep :: pyJoin sep (q :: qs) from rfl]
      rw [pySplit_append sep p _ (hsep p (List.mem_cons_self _ _))]
      rw [ih (by simp) (fun r hr => hsep r (List.mem_cons_of_mem _ hr))]

theorem comma_not_mem_renderNat (n : Nat) : ',' ∉ renderNat n := by
  intro h
  have := renderNat_digits n ',' h
  simp [isDigitCh] at this

theorem dot_not_mem_renderNat (n : Nat) : '.' ∉ renderNat n := by
  intro h
  have := renderNat_digits n '.' h
  simp [isDigitCh] at this

theorem comma_not_mem_renderInt (i : Int) : ',' ∉ renderInt i := by
  unfold renderInt
  split
  · intro h
    rcases List.mem_cons.mp h with h | h
    · cases h
    · exact comma_not_mem_renderNat _ h
  · exact comma_not_mem_renderNat _

theorem digitChar_ne_comma (d : Nat) : digitChar d ≠ ',' := by
  unfold digitChar
  split <;> decide

theorem digitChar_ne_dot (d : Nat) : digitChar d ≠ '.' := by
  unfold digitChar
  split <;> decide

theorem comma_not_mem_render2Core (a : Nat) : ',' ∉ render2Core a := by
  unfold render2Core
  intro h
  rcases List.mem_append.mp h with h | h
  · exact comma_not_mem_renderNat _ h
  · rcases List.mem_cons.mp h with h | h
    · cases h
    · rcases List.mem_cons.mp h with h | h
      · exact digitChar_ne_comma _ h.symm
      · rcases List.mem_singleton.mp h with h
        exact digitChar_ne_comma _ h.symm

theorem comma_not_mem_render2 (q : ℚ) : ',' ∉ render2 q := by
  unfold render2
  dsimp only
  split
  · intro h
    rcases List.mem_cons.mp h with h | h
    · cases h
    · exact comma_not_mem_render2Core _ h
  · exact comma_not_mem_render2Core _

theorem parseNatCh_two_digits (x y : Nat) (hx : x < 10) (hy : y < 10) :
    parseNatCh [digitChar x, digitChar y] = some (10 * x + y) := by
  have hdx := digitChar_isDigit x hx
  have hdy := digitChar_isDigit y hy
  simp [parseNatCh, parseNatAux, hdx.1, hdx.2, hdy.1, hdy.2]

theorem pyFloatMag_render2Core (a : Nat) :
    pyFloatMag (render2Core a) = some ((a : ℚ) / 100) := by
  unfold render2Core pyFloatMag
  rw [show ('.' :: digitChar (a % 100 / 10) :: [digitChar (a % 100 % 10)] : PyStr)
      = '.' :: [digitChar (a % 100 / 10), digitChar (a % 100 % 10)] from rfl]
  rw [pySplit_append '.' _ _ (dot_not_mem_renderNat _)]
  rw [pySplit_no_sep '.' _ (by
    intro h
    rcases List.mem_cons.mp h with h | h
    · exact digitChar_ne_dot _ h.symm
    · rcases List.mem_singleton.mp h with h
      exact digitChar_ne_dot _ h.symm)]
  have hne : renderNat (a / 100) ≠ [] :=
    renderNatFuel_ne_nil (a / 100 + 1) (a / 100) (Nat.lt_succ_self _)
  have hemp : (renderNat (a / 100)).isEmpty = false := by
    cases hr : renderNat (a / 100) with
    | nil => exact absurd hr hne
    | cons c cs => rfl
  simp only [hemp, List.isEmpty_cons, Bool.false_and, Bool.and_false, if_neg,
    Bool.false_eq_true, not_false_eq_true, if_false]
  rw [parseNatCh_renderNat, parseNatCh_two_digits _ _ (by omega) (by omega)]
  simp only [List.length_cons, List.length_nil]
  have hdm : 100 * (a / 100) + a % 100 = a := Nat.div_add_mod a 100
  have hq : ((10 : ℚ) ^ (0 + 1 + 1)) = 100 := by norm_num
  rw [hq]
  rw [show ((10 : ℕ) * (a % 100 / 10) + a % 100 % 10) = a % 100 by omega]
  field_simp
  rw [show ((a : ℚ)) = ((100 * (a / 100 : ℕ) + (a % 100 : ℕ) : ℕ) : ℚ) by rw [hdm]]
  push_cast
  ring

theorem head_render2Core_not_neg (a : Nat) (c : Char) (cs : PyStr)
    (hr : render2Core a = c :: cs) : ¬ c = '-' := by
  intro he
  subst he
  unfold render2Core at hr
  cases hh : renderNat (a / 100) with
  | nil => exact renderNatFuel_ne_nil (a / 100 + 1) (a / 100) (Nat.lt_succ_self _) hh
  | cons d ds =>
    rw [hh] at hr
    simp only [List.cons_append, List.cons.injEq] at hr
    have hd : isDigitCh d = true :=
      renderNat_digits (a / 100) d (by rw [hh]; exact List.mem_cons_self d ds)
    rw [hr.1] at hd
    simp [isDigitCh] at hd

theorem pyFloatParse_render2Core (a : Nat) :
    pyFloatParse (render2Core a) = some ((a : ℚ) / 100) := by
  cases hr : render2Core a with
  | nil =>
    unfold render2Core at hr
    simp at hr
  | cons c cs =>
    have hmag : pyFloatMag (c :: cs) = some ((a : ℚ) / 100) := by
      rw [← hr]
      exact pyFloatMag_render2Core a
    simp [pyFloatParse, head_render2Core_not_neg a c cs hr, hmag]

theorem pyFloatParse_render2 (q : ℚ) :
    pyFloatParse (render2 q) = some (round2 q) := by
  unfold render2 round2
  dsimp only
  by_cases hneg : round ((100 : ℚ) * q) < 0
  · rw [if_pos hneg]
    have hmag : pyFloatMag (render2Core (round ((100 : ℚ) * q)).natAbs) =
        some (((round ((100 : ℚ) * q)).natAbs : ℚ) / 100) := pyFloatMag_render2Core _
    have h1 : ((round ((100 : ℚ) * q)).natAbs : ℤ) = -round ((100 : ℚ) * q) := by omega
    have hcast : (((round ((100 : ℚ) * q)).natAbs : ℕ) : ℚ) =
        -((round ((100 : ℚ) * q) : ℤ) : ℚ) := by
      rw [Int.cast_natAbs, abs_of_neg hneg]
      push_cast
      ring
    simp only [pyFloatParse, if_pos, hmag, Option.map_some']
    rw [hcast]
    congr 1
    ring
  · rw [if_neg hneg]
    rw [pyFloatParse_render2Core]
    have h1 : ((round ((100 : ℚ) * q)).natAbs : ℤ) = round ((100 : ℚ) * q) := by omega
    have hcast : (((round ((100 : ℚ) * q)).natAbs : ℕ) : ℚ) =
        ((round ((100 : ℚ) * q) : ℤ) : ℚ) := by
      rw [Int.cast_natAbs, abs_of_nonneg (show (0 : ℤ) ≤ round ((100 : ℚ) * q) by omega)]
    rw [hcast]

theorem pyFloatMag_renderNat (n : Nat) : pyFloatMag (renderNat n) = some ((n : ℕ) : ℚ) := by
  unfold pyFloatMag
  rw [pySplit_no_sep '.' _ (dot_not_mem_renderNat n)]
  dsimp only
  rw [parseNatCh_renderNat]
  rfl

theorem pyFloatParse_renderNat (n : Nat) : pyFloatParse (renderNat n) = some ((n : ℕ) : ℚ) := by
  cases hr : renderNat n with
  | nil => exact absurd hr (renderNatFuel_ne_nil (n + 1) n (Nat.lt_succ_self _))
  | cons c cs =>
    have hcne : ¬ c = '-' := head_renderNat_not_neg n c cs hr
    have hmag : pyFloatMag (c :: cs) = some ((n : ℕ) : ℚ) := by
      rw [← hr]
      exact pyFloatMag_renderNat n
    simp [pyFloatParse, hcne, hmag]

theorem pyFloatParse_renderInt (i : Int) : pyFloatParse (renderInt i) = some ((i : ℤ) : ℚ) := by
  unfold renderInt
  by_cases hneg : i < 0
  · rw [if_pos hneg]
    have hmag := pyFloatMag_renderNat i.natAbs
    have h1 : (i.natAbs : ℤ) = -i := by omega
    have hcast : ((i.natAbs : ℕ) : ℚ) = -((i : ℤ) : ℚ) := by
      rw [Int.cast_natAbs, abs_of_neg hneg]
      push_cast
      ring
    simp only [pyFloatParse, if_pos, hmag, Option.map_some']
    rw [hcast]
    congr 1
    ring
  · rw [if_neg hneg]
    rw [pyFloatParse_renderNat]
    have h1 : ((i.natAbs : ℕ) : ℤ) = i := by omega
    have hcast : ((i.natAbs : ℕ) : ℚ) = ((i : ℤ) : ℚ) := by
      rw [Int.cast_natAbs, abs_of_nonneg (show (0 : ℤ) ≤ i by omega)]
    rw [hcast]

theorem round2_mono {a b : ℚ} (h : a ≤ b) : round2 a ≤ round2 b := by
  unfold round2
  have hr : round ((100 : ℚ) * a) ≤ round ((100 : ℚ) * b) := by
    rw [round_eq, round_eq]
    exact Int.floor_mono (by linarith)
  have h2 : ((round ((100 : ℚ) * a) : ℤ) : ℚ) ≤ ((round ((100 : ℚ) * b) : ℤ) : ℚ) := by
    exact_mod_cast hr
  linarith

theorem truncQ_cast_nonneg {q : ℚ} (h : 0 ≤ q) : (0 : ℚ) ≤ ((truncQ q : ℤ) : ℚ) := by
  unfold truncQ
  rw [if_pos h]
  have : (0 : ℤ) ≤ ⌊q⌋ := Int.floor_nonneg.mpr h
  exact_mod_cast this

theorem parseBarFields_eval (row : PyStr) (a b c d e f : PyStr)
    (hsplit : pySplit ',' row = [a, b, c, d, e, f])
    (dt : Int) (q1 q2 q3 q4 q5 : ℚ)
    (ha : pyIntParse a = some dt)
    (hb : pyFloatParse b = some q1) (hc : pyFloatParse c = some q2)
    (hd : pyFloatParse d = some q3) (he : pyFloatParse e = some q4)
    (hf : pyFloatParse f = some q5) :
    parseBarFields row = .ok (dt, q1, q2, q3, q4, q5) := by
  unfold parseBarFields
  rw [hsplit]
  simp [getCol, pyFloatE, ha, hb, hc, hd, he, hf, List.get?, bind, Except.bind,
    Functor.map, Except.map, pure, Except.pure]

/-- The split of an encoded row into its six rendered fields. -/
theorem pySplit_bar_to_row (b : Bar) :
    pySplit ',' (bar_to_row b) =
      [renderInt b.date_time, render2 b.close, render2 b.high,
        render2 b.low, render2 b.open_, renderInt (truncQ b.volume)] := by
  unfold bar_to_row
  apply pySplit_pyJoin
  · simp
  · intro p hp
    simp only [List.mem_cons, List.not_mem_nil, or_false] at hp
    rcases hp with h | h | h | h | h | h <;> subst h
    · exact comma_not_mem_renderInt _
    · exact comma_not_mem_render2 _
    · exact comma_not_mem_render2 _
    · exact comma_not_mem_render2 _
    · exact comma_not_mem_render2 _
    · exact comma_not_mem_renderInt _

/-- C1, counterexample: the valid bar `bC1` has `adj_close = 3/4` yet
`row_to_bar (bar_to_row bC1)` returns a bar whose adjusted close is the
close `3/2` (the encoder never serializes the adjusted close and the
decoder substitutes the close for it), so the decoded bar does not agree
with `bC1` even after two-decimal rounding of the price fields. -/
theorem C1_counterexample :
    barOk bC1 ∧
      row_to_bar (bar_to_row bC1) = .ok (.bar decodedBarC1) ∧
      decodedBarC1 ≠ roundBar bC1 ∧
      decodedBarC1.adj_close ≠ round2 bC1.adj_close ∧
      decodedBarC1.adj_close ≠ bC1.adj_close :=
  ⟨by decide, by decide, by decide, by decide, by decide⟩

/-- C1, amended: for every Bar `b` satisfying the OHLC invariants WHOSE
ADJUSTED CLOSE EQUALS ITS CLOSE (every value `decode` itself produces has
this shape), decoding the encoded row yields the bar whose price fields
are `b`'s rounded to two decimals, whose volume is `b`'s truncated to an
integer, and whose timestamp is `b`'s. -/
theorem C1_roundtrip_adj (b : Bar) (hb : barOk b) (hadj : b.adj_close = b.close) :
    row_to_bar (bar_to_row b) = .ok (.bar (roundBar b)) := by
  obtain ⟨h1, h2, h3, h4, h5, h6⟩ := hb
  have hfields := parseBarFields_eval (bar_to_row b) _ _ _ _ _ _ (pySplit_bar_to_row b)
    b.date_time (round2 b.close) (round2 b.high) (round2 b.low) (round2 b.open_)
    ((truncQ b.volume : ℤ) : ℚ)
    (pyIntParse_renderInt _) (pyFloatParse_render2 _) (pyFloatParse_render2 _)
    (pyFloatParse_render2 _) (pyFloatParse_render2 _) (pyFloatParse_renderInt _)
  unfold row_to_bar
  rw [hfields]
  have hok : barOkQ (round2 b.open_) (round2 b.high) (round2 b.low) (round2 b.close)
      (((truncQ b.volume : ℤ) : ℚ)) :=
    ⟨round2_mono h1, round2_mono h2, round2_mono h3, round2_mono h4, round2_mono h5,
      truncQ_cast_nonneg h6⟩
  dsimp only
  unfold mkBar
  rw [if_pos hok]
  unfold roundBar
  rw [hadj]

/-- C1, witness: the amended round trip evaluated at the concrete valid
bar `bW` (whose adjusted close equals its close). -/
theorem C1_roundtrip_adj_witness :
    row_to_bar (bar_to_row bW) = .ok (.bar (roundBar bW)) :=
  C1_roundtrip_adj bW (by decide) (by decide)

/- ===== Lemmas: the header/error scan and date conversion ===== -/

theorem pyStartsWith_head (p0 : Char) (ps s : PyStr) (h : pyStartsWith (p0 :: ps) s = true) :
    ∃ t, s = p0 :: t ∧ pyStartsWith ps t = true := by
  cases s with
  | nil => simp [pyStartsWith] at h
  | cons c cs =>
    unfold pyStartsWith at h
    by_cases hc : p0 = c
    · subst hc
      rw [if_pos rfl] at h
      exact ⟨cs, rfl, h⟩
    · rw [if_neg hc] at h
      cases h

theorem errTok_head : errTok = 'e' :: ("rror").toList := rfl

theorem err_vol_disjoint (r : PyStr) (he : pyStartsWith errTok r = true) :
    pyStartsWith volTok r = false := by
  rw [errTok_head] at he
  obtain ⟨t, rfl, _⟩ := pyStartsWith_head 'e' _ r he
  rfl

theorem convertRow_err_none (r : PyStr) (he : pyStartsWith errTok r = true) :
    convertRow r = none := by
  rw [errTok_head] at he
  obtain ⟨t, rfl, _⟩ := pyStartsWith_head 'e' _ r he
  unfold convertRow
  rw [pySplit_cons]
  cases hs : pySplit ',' t with
  | nil => exact absurd hs (pySplit_ne_nil ',' t)
  | cons h2 t2 =>
    simp [pyIntParse, parseNatCh, parseNatAux, isDigitCh]

theorem convertDates_none_of_mem (rows : List PyStr) (r : PyStr) (hr : r ∈ rows)
    (hc : convertRow r = none) : convertDates rows = none := by
  induction rows with
  | nil => cases hr
  | cons a rest ih =>
    rcases List.mem_cons.mp hr with rfl | hmem
    · unfold convertDates
      rw [hc]
    · unfold convertDates
      cases ha : convertRow a with
      | none => rfl
      | some a2 =>
        rw [ih hmem]
        rfl

theorem scanHeader_flag_true (rows : List PyStr) : ∀ msgs b ch m,
    scanHeader rows true msgs = .ok (b, ch, m) → b = true := by
  induction rows with
  | nil =>
    intro msgs b ch m h
    simp [scanHeader] at h
    exact h.1
  | cons r rest ih =>
    intro msgs b ch m h
    unfold scanHeader at h
    by_cases he : pyStartsWith errTok r = true
    · rw [if_pos he] at h
      cases rest with
      | nil => exact absurd h (by simp)
      | cons next rs => exact ih _ b ch m h
    · rw [if_neg he] at h
      by_cases hv : pyStartsWith volTok r = true
      · rw [if_pos hv] at h
        simp at h
        exact h.1
      · rw [if_neg hv] at h
        exact ih msgs b ch m h

theorem scanHeader_msgs_extend (rows : List PyStr) : ∀ e msgs b ch m,
    scanHeader rows e msgs = .ok (b, ch, m) → ∃ t, m = msgs ++ t := by
  induction rows with
  | nil =>
    intro e msgs b ch m h
    simp [scanHeader] at h
    exact ⟨[], by simp [h.2.2]⟩
  | cons r rest ih =>
    intro e msgs b ch m h
    unfold scanHeader at h
    by_cases he : pyStartsWith errTok r = true
    · rw [if_pos he] at h
      cases rest with
      | nil => exact absurd h (by simp)
      | cons next rs =>
        obtain ⟨t, ht⟩ := ih true (msgs ++ [next.drop msgTok.length]) b ch m h
        exact ⟨[next.drop msgTok.length] ++ t, by rw [ht]; simp⟩
    · rw [if_neg he] at h
      by_cases hv : pyStartsWith volTok r = true
      · rw [if_pos hv] at h
        simp at h
        exact ⟨[], by simp [h.2.2]⟩
      · rw [if_neg hv] at h
        exact ih e msgs b ch m h

theorem scanHeader_false_to_true_msgs (rows : List PyStr) : ∀ msgs ch m,
    scanHeader rows false msgs = .ok (true, ch, m) → ∃ t, m = msgs ++ t ∧ t ≠ [] := by
  induction rows with
  | nil =>
    intro msgs ch m h
    simp [scanHeader] at h
  | cons r rest ih =>
    intro msgs ch m h
    unfold scanHeader at h
    by_cases he : pyStartsWith errTok r = true
    · rw [if_pos he] at h
      cases rest with
      | nil => exact absurd h (by simp)
      | cons next rs =>
        obtain ⟨t, ht⟩ :=
          scanHeader_msgs_extend (next :: rs) true (msgs ++ [next.drop msgTok.length]) true ch m h
        exact ⟨[next.drop msgTok.length] ++ t, by rw [ht]; simp, by simp⟩
    · rw [if_neg he] at h
      by_cases hv : pyStartsWith volTok r = true
      · rw [if_pos hv] at h
        simp at h
      · rw [if_neg hv] at h
        exact ih msgs ch m h

theorem scanHeader_err_line_mem (rows : List PyStr) : ∀ e msgs ch m,
    scanHeader rows e msgs = .ok (false, ch, m) →
    ∀ r ∈ rows, pyStartsWith errTok r = true → r ∈ ch.getD rows := by
  induction rows with
  | nil =>
    intro e msgs ch m h r hr
    cases hr
  | cons r0 rest ih =>
    intro e msgs ch m h r hr hrerr
    unfold scanHeader at h
    by_cases he : pyStartsWith errTok r0 = true
    · rw [if_pos he] at h
      cases rest with
      | nil => exact absurd h (by simp)
      | cons next rs =>
        have hb := scanHeader_flag_true (next :: rs) (msgs ++ [next.drop msgTok.length]) false ch m h
        cases hb
    · rw [if_neg he] at h
      by_cases hv : pyStartsWith volTok r0 = true
      · rw [if_pos hv] at h
        simp only [Except.ok.injEq, Prod.mk.injEq] at h
        obtain ⟨-, hch, -⟩ := h
        rw [← hch]
        simp only [Option.getD_some]
        rcases List.mem_cons.mp hr with rfl | hmem
        · rw [err_vol_disjoint r hrerr] at hv
          cases hv
        · exact hmem
      · rw [if_neg hv] at h
        rcases List.mem_cons.mp hr with rfl | hmem
        · exact absurd hrerr he
        · have hm := ih e msgs ch m h r hmem hrerr
          cases ch with
          | some c => exact hm
          | none => exact List.mem_cons_of_mem _ hm

theorem scanHeader_no_special (rows : List PyStr) : ∀ e msgs,
    (∀ r ∈ rows, pyStartsWith errTok r = false ∧ pyStartsWith volTok r = false) →
    scanHeader rows e msgs = .ok (e, none, msgs) := by
  induction rows with
  | nil =>
    intro e msgs _
    rfl
  | cons r rest ih =>
    intro e msgs h
    have hr := h r (List.mem_cons_self _ _)
    unfold scanHeader
    rw [if_neg (by simp [hr.1]), if_neg (by simp [hr.2])]
    exact ih e msgs (fun x hx => h x (List.mem_cons_of_mem _ hx))

theorem process_cons (now : Nat) (data fp : PyStr) (rest : List (PyStr × PyStr)) :
    process_downloaded_data now ((data, fp) :: rest) =
      match processOneDay now data with
      | .error e => .error e
      | .ok (.failDownload msgs) =>
        (process_downloaded_data now rest).map
          (fun r => (r.1, msgs.map (fmtDownloadErr (symbolFromFilePath fp)) ++ r.2))
      | .ok .failDate =>
        (process_downloaded_data now rest).map
          (fun r => (r.1, fmtDateErr (symbolFromFilePath fp) :: r.2))
      | .ok (.emit rows) =>
        (process_downloaded_data now rest).map (fun r => ((rows, fp) :: r.1, r.2)) := rfl

/-- C7, counterexample: the first payload contains a line beginning with
`error` (as its final line), yet the ingestor does not skip it and
continue — the message lookup `data_rows[i+1]` raises IndexError and the
whole run aborts, so the second (well-formed) symbol-day is never
processed. -/
theorem C7_counterexample :
    (∃ r ∈ linesOf payloadErrLast, pyStartsWith errTok r = true) ∧
      process_downloaded_data 0 [(payloadErrLast, ("a").toList), (payloadGood, ("b").toList)] =
        .error .indexError :=
  ⟨by decide, by decide⟩

/-- C7, amended: for every symbol-day whose payload contains a line
beginning with `error`, PROVIDED the header scan completes (i.e. every
`error` line it reaches is followed by a message line — when the `error`
line is last, the run instead aborts with IndexError as the
counterexample shows), the ingestor yields no rows for that symbol-day,
records at least one failure line for it, and continues with the
remaining symbol-days. -/
theorem C7_error_day_skipped (now : Nat) (data fp : PyStr) (rest : List (PyStr × PyStr))
    (herr : ∃ r ∈ linesOf data, pyStartsWith errTok r = true)
    (hok : isOkE (scanHeader (linesOf data) false []) = true) :
    ∃ logs : List PyStr, logs ≠ [] ∧
      process_downloaded_data now ((data, fp) :: rest) =
        (process_downloaded_data now rest).map (fun r => (r.1, logs ++ r.2)) := by
  cases hs : scanHeader (linesOf data) false [] with
  | error e =>
    rw [hs] at hok
    cases hok
  | ok out =>
    obtain ⟨b, ch, msgs⟩ := out
    cases b with
    | true =>
      refine ⟨msgs.map (fmtDownloadErr (symbolFromFilePath fp)), ?_, ?_⟩
      · obtain ⟨t, ht, htne⟩ := scanHeader_false_to_true_msgs (linesOf data) [] ch msgs hs
        rw [ht]
        simp [htne]
      · have hday : processOneDay now data = .ok (.failDownload msgs) := by
          unfold processOneDay
          rw [hs]
        rw [process_cons, hday]
    | false =>
      obtain ⟨r, hr, hrerr⟩ := herr
      have hmem := scanHeader_err_line_mem (linesOf data) false [] ch msgs hs r hr hrerr
      have hconv : convertDates (ch.getD (linesOf data)) = none :=
        convertDates_none_of_mem _ r hmem (convertRow_err_none r hrerr)
      refine ⟨[fmtDateErr (symbolFromFilePath fp)], by simp, ?_⟩
      have hday : processOneDay now data = .ok .failDate := by
        unfold processOneDay
        rw [hs]
        dsimp only
        rw [hconv]
      rw [process_cons, hday]
      rfl

/-- C7, witness: the claim's example payload `"error\nmessage:rate
limited\n"` followed by one good symbol-day — the error day yields no
rows, contributes one failure record, and the good day is still
processed. -/
theorem C7_error_day_skipped_witness :
    process_downloaded_data 0 [(payloadErr, ("a").toList), (payloadC8, ("b").toList)] =
      (process_downloaded_data 0 [(payloadC8, ("b").toList)]).map
        (fun r => (r.1, [("error downloading minute data for a: rate limited").toList] ++ r.2)) := by
  obtain ⟨logs, -, -⟩ := C7_error_day_skipped 0 payloadErr (("a").toList)
    [(payloadC8, ("b").toList)] (by decide) (by decide)
  decide

/-- C8: whenever a symbol-day's cleaned rows (post header-scan and date
conversion) are `r`, the ingestor emits `withholdLive now r`, which
drops exactly the last row when more than one row remains and the clock
is strictly inside the 09:30-16:00 session, and withholds nothing when
exactly one row remains or the clock is outside the session. -/
theorem C8_withholding (now : Nat) (data fp : PyStr) (rest : List (PyStr × PyStr))
    (r : List PyStr) (h : cleanedRows data = some r) :
    processOneDay now data = .ok (.emit (withholdLive now r)) ∧
    process_downloaded_data now ((data, fp) :: rest) =
      (process_downloaded_data now rest).map
        (fun p => ((withholdLive now r, fp) :: p.1, p.2)) ∧
    (1 < r.length → inSession now = true → withholdLive now r = r.dropLast) ∧
    (r.length = 1 ∨ inSession now = false → withholdLive now r = r) := by
  have hday : processOneDay now data = .ok (.emit (withholdLive now r)) := by
    unfold cleanedRows at h
    cases hs : scanHeader (linesOf data) false [] with
    | error e =>
      rw [hs] at h
      simp at h
    | ok out =>
      obtain ⟨b, ch, msgs⟩ := out
      rw [hs] at h
      cases b with
      | true => simp at h
      | false =>
        dsimp only at h
        unfold processOneDay
        rw [hs]
        dsimp only
        rw [h]
  refine ⟨hday, ?_, ?_, ?_⟩
  · rw [process_cons, hday]
  · intro h1 h2
    unfold withholdLive
    rw [if_pos ⟨h1, h2⟩]
  · intro hd
    unfold withholdLive
    rcases hd with hd | hd
    · rw [if_neg (by rw [hd]; simp)]
    · rw [if_neg (by simp [hd])]

/-- C8, witness: the two-row payload `payloadC8` — at 12:00 (inside the
session) exactly the last cleaned row is withheld, and at midnight
(outside the session) nothing is withheld. -/
theorem C8_withholding_witness :
    processOneDay 43200 payloadC8 = .ok (.emit (withholdLive 43200 rowsC8)) ∧
    withholdLive 43200 rowsC8 = rowsC8.dropLast ∧
    withholdLive 0 rowsC8 = rowsC8 := by
  have ha := C8_withholding 43200 payloadC8 (("b").toList) [] rowsC8 (by decide)
  have hb := C8_withholding 0 payloadC8 (("b").toList) [] rowsC8 (by decide)
  exact ⟨ha.1, ha.2.2.1 (by decide) (by decide), hb.2.2.2 (Or.inr (by decide))⟩

/-- C10: for a payload none of whose lines begins with `error` or
`volume`, the scan discards nothing — the symbol-day's outcome is the
date conversion applied to EVERY line of the payload; and when any
line's leading field fails to parse as an integer, the whole symbol-day
is dropped (with a failure record) and processing continues with the
remaining symbol-days. -/
theorem C10_no_header_discard (now : Nat) (data fp : PyStr) (rest : List (PyStr × PyStr))
    (h : ∀ r ∈ linesOf data, pyStartsWith errTok r = false ∧ pyStartsWith volTok r = false) :
    processOneDay now data =
      (match convertDates (linesOf data) with
        | none => .ok .failDate
        | some rs => .ok (.emit (withholdLive now rs))) ∧
    (convertDates (linesOf data) = none →
      process_downloaded_data now ((data, fp) :: rest) =
        (process_downloaded_data now rest).map
          (fun p => (p.1, fmtDateErr (symbolFromFilePath fp) :: p.2))) := by
  have hs := scanHeader_no_special (linesOf data) false [] h
  have h1 : processOneDay now data =
      (match convertDates (linesOf data) with
        | none => .ok .failDate
        | some rs => .ok (.emit (withholdLive now rs))) := by
    unfold processOneDay
    rw [hs]
    rfl
  refine ⟨h1, fun hc => ?_⟩
  rw [process_cons, h1, hc]

/-- C10, witness: a header-less payload whose second line has the
non-numeric leading field `bad`; every line reaches date conversion and
the whole symbol-day is dropped with a failure record. -/
theorem C10_no_header_discard_witness :
    processOneDay 0 payloadC10 = .ok .failDate ∧
    process_downloaded_data 0 [(payloadC10, ("a").toList)] =
      (process_downloaded_data 0 []).map
        (fun p => (p.1, fmtDateErr (symbolFromFilePath (("a").toList)) :: p.2)) := by
  have h := C10_no_header_discard 0 payloadC10 (("a").toList) [] (by decide)
  have hc : convertDates (linesOf payloadC10) = none := by decide
  constructor
  · rw [h.1, hc]
  · exact h.2 hc

/-- C4: `row_to_bar` never returns a Bar violating the OHLC/volume
invariants — a returned Bar always satisfies them — and whenever the six
fields parse but violate the invariants, it returns the assertion
message as a `malformed` value (error as data) rather than a Bar or a
raised exception. -/
theorem C4_decode_invariants (row : PyStr) :
    (∀ b, row_to_bar row = .ok (.bar b) → barOk b) ∧
    (∀ dt c h l o v, parseBarFields row = .ok (dt, c, h, l, o, v) →
      ¬ barOkQ o h l c v → row_to_bar row = .ok (.malformed assertMsg)) := by
  constructor
  · intro b hb
    unfold row_to_bar at hb
    cases hp : parseBarFields row with
    | error e =>
      rw [hp] at hb
      cases hb
    | ok t =>
      obtain ⟨dt, c, h, l, o, v⟩ := t
      rw [hp] at hb
      dsimp only at hb
      unfold mkBar at hb
      by_cases hok : barOkQ o h l c v
      · rw [if_pos hok] at hb
        dsimp only at hb
        have hbeq : (⟨dt, o, h, l, c, v, c⟩ : Bar) = b := by
          have := hb
          simp only [Except.ok.injEq, RowRes.bar.injEq] at this
          exact this
        rw [← hbeq]
        exact hok
      · rw [if_neg hok] at hb
        dsimp only at hb
        simp at hb
  · intro dt c h l o v hp hnot
    unfold row_to_bar
    rw [hp]
    dsimp only
    unfold mkBar
    rw [if_neg hnot]

/-- C4, witness: the row `"1000,1.50,2.00,5.00,1.00,100"` parses but its
low (5.00) exceeds its high (2.00), so `row_to_bar` returns the
malformed-row message as data. -/
theorem C4_decode_invariants_witness :
    row_to_bar (("1000,1.50,2.00,5.00,1.00,100").toList) = .ok (.malformed assertMsg) :=
  (C4_decode_invariants (("1000,1.50,2.00,5.00,1.00,100").toList)).2
    1000 (3 / 2) 2 5 1 100 (by decide) (by decide)

/- ===== Lemmas: the sector upsert ===== -/

theorem execRows_sector (st : DB) (names : List PyStr) :
    execRows .sector [kNameKey] st (names.map mkSectorDict) =
      .ok (names.foldl sectorReplace st) := by
  induction names generalizing st with
  | nil => rfl
  | cons n ns ih =>
    simp only [List.map_cons, List.foldl_cons]
    rw [show execRows TableId.sector [kNameKey] st (mkSectorDict n :: ns.map mkSectorDict) =
        execRows TableId.sector [kNameKey] (sectorReplace st n) (ns.map mkSectorDict) from rfl]
    exact ih (sectorReplace st n)

theorem insert_or_update_sectors_eq (st : DB) (names : List PyStr) (hne : names ≠ []) :
    insert_or_update_sectors st names = .ok (names.foldl sectorReplace st) := by
  cases names with
  | nil => exact absurd rfl hne
  | cons n ns =>
    show execRows TableId.sector (dKeys (mkSectorDict n)) st ((n :: ns).map mkSectorDict) = _
    exact execRows_sector st (n :: ns)

theorem map_snd_filter_ne (l : List (Nat × PyStr)) (v : PyStr) :
    ((l.filter (fun r => !(r.2 == v))).map (fun r => r.2)) =
      ((l.map (fun r => r.2)).filter (fun x => !(x == v))) := by
  induction l with
  | nil => rfl
  | cons a l ih =>
    by_cases hv : (a.2 == v) = true
    · simp [List.filter_cons, hv, ih]
    · simp [List.filter_cons, hv, ih]

theorem sectorNames_sectorReplace (st : DB) (v : PyStr) :
    sectorNames (sectorReplace st v) =
      ((sectorNames st).filter (fun x => !(x == v))) ++ [v] := by
  unfold sectorNames sectorReplace
  simp only [List.map_append, List.map_cons, List.map_nil]
  rw [map_snd_filter_ne]

theorem memB_cons (x n : PyStr) (ns : List PyStr) :
    memB x (n :: ns) = (if n = x then true else memB x ns) := rfl

theorem sectorNames_foldl (names : List PyStr) : ∀ st : DB,
    sectorNames (names.foldl sectorReplace st) =
      ((sectorNames st).filter (fun x => !(memB x names))) ++ dlast names := by
  induction names with
  | nil =>
    intro st
    simp [dlast, memB]
  | cons n ns ih =>
    intro st
    rw [List.foldl_cons, ih (sectorReplace st n), sectorNames_sectorReplace]
    rw [List.filter_append, List.filter_filter]
    have hfe : (fun a => !(memB a ns) && !(a == n)) = (fun x => !(memB x (n :: ns))) := by
      funext x
      rw [memB_cons]
      by_cases hx : n = x
      · subst hx
        simp
      · have hxn : ¬ (x = n) := fun he => hx he.symm
        simp [hx, hxn]
    rw [show dlast (n :: ns) = (if memB n ns = true then dlast ns else n :: dlast ns) from rfl]
    by_cases hmem : memB n ns = true
    · rw [if_pos hmem]
      have h1 : List.filter (fun x => !(memB x ns)) [n] = [] := by simp [hmem]
      rw [h1, hfe]
      simp
    · have hm : memB n ns = false := by
        revert hmem
        cases memB n ns <;> simp
      rw [if_neg hmem]
      have h1 : List.filter (fun x => !(memB x ns)) [n] = [n] := by simp [hm]
      rw [h1, hfe]
      simp

theorem dlast_cons (n : PyStr) (ns : List PyStr) :
    dlast (n :: ns) = if memB n ns = true then dlast ns else n :: dlast ns := rfl

theorem dlast_memB (names : List PyStr) (x : PyStr) :
    memB x (dlast names) = memB x names := by
  induction names with
  | nil => rfl
  | cons n ns ih =>
    rw [dlast_cons]
    by_cases hmem : memB n ns = true
    · rw [if_pos hmem, ih, memB_cons]
      by_cases hx : n = x
      · subst hx
        simp [hmem]
      · rw [if_neg hx]
    · rw [if_neg hmem, memB_cons, memB_cons, ih]

theorem filter_bang_memB_nil (l names : List PyStr)
    (h : ∀ x, memB x l = true → memB x names = true) :
    l.filter (fun x => !(memB x names)) = [] := by
  induction l with
  | nil => rfl
  | cons a as ih =>
    have ha : memB a names = true := h a (by rw [memB_cons, if_pos rfl])
    simp only [List.filter_cons, ha, Bool.not_true, Bool.false_eq_true, if_false]
    exact ih (fun x hx => h x (by
      rw [memB_cons]
      by_cases hax : a = x
      · rw [if_pos hax]
      · rw [if_neg hax]
        exact hx))

theorem filter_notmem_dlast (names : List PyStr) :
    (dlast names).filter (fun x => !(memB x names)) = [] :=
  filter_bang_memB_nil (dlast names) names
    (fun x hx => by rw [← dlast_memB]; exact hx)

theorem count_filter_map (l : List (Nat × PyStr)) (n : PyStr) :
    (l.filter (fun r => r.2 == n)).length =
      ((l.map (fun r => r.2)).filter (fun x => x == n)).length := by
  induction l with
  | nil => rfl
  | cons a l ih =>
    by_cases hv : (a.2 == n) = true
    · simp [List.filter_cons, hv, ih]
    · simp [List.filter_cons, hv, ih]

theorem countName_eq (st : DB) (n : PyStr) :
    countName st n = ((sectorNames st).filter (fun x => x == n)).length := by
  unfold countName sectorNames
  exact count_filter_map st.sector n

theorem filter_eqname_nil (l : List PyStr) (n : PyStr) (h : memB n l = false) :
    l.filter (fun x => x == n) = [] := by
  induction l with
  | nil => rfl
  | cons m ms ih =>
    rw [memB_cons] at h
    by_cases hm : m = n
    · rw [if_pos hm] at h
      cases h
    · rw [if_neg hm] at h
      simp [List.filter_cons, hm, ih h]

theorem count_dlast_one (names : List PyStr) (n : PyStr) (h : memB n names = true) :
    ((dlast names).filter (fun x => x == n)).length = 1 := by
  induction names with
  | nil => simp [memB] at h
  | cons m ms ih =>
    rw [dlast_cons]
    rw [memB_cons] at h
    by_cases hmem : memB m ms = true
    · rw [if_pos hmem]
      by_cases hm : m = n
      · subst hm
        exact ih hmem
      · rw [if_neg hm] at h
        exact ih h
    · rw [if_neg hmem]
      have hms : memB m ms = false := by
        revert hmem
        cases memB m ms <;> simp
      by_cases hm : m = n
      · subst hm
        have h0 : (dlast ms).filter (fun x => x == m) = [] := by
          apply filter_eqname_nil
          rw [dlast_memB]
          exact hms
        simp [List.filter_cons, h0]
      · rw [if_neg hm] at h
        have hc := ih h
        simp [List.filter_cons, hm, hc]

theorem filter_name_in_filtered (X names : List PyStr) (n : PyStr) (h : memB n names = true) :
    ((X.filter (fun x => !(memB x names))).filter (fun x => x == n)) = [] := by
  induction X with
  | nil => rfl
  | cons a as ih =>
    by_cases hmem : memB a names = true
    · simp only [List.filter_cons, hmem, Bool.not_true, Bool.false_eq_true, if_false]
      exact ih
    · have hma : memB a names = false := by
        revert hmem
        cases memB a names <;> simp
      by_cases han : (a == n) = true
      · have haeq : a = n := by
          exact beq_iff_eq.mp han
        subst haeq
        rw [hma] at h
        cases h
      · simp only [List.filter_cons, hma, Bool.not_false, if_true, han,
          Bool.false_eq_true, if_false]
        exact ih

/-- C5, counterexample: upserting `["Technology"]` twice does NOT leave
the sector table in the same state as upserting it once — the
INSERT OR REPLACE deletes the conflicting row and re-inserts the name
under a fresh AUTOINCREMENT `sector_id` (1 after one call, 2 after two). -/
theorem C5_counterexample :
    (insert_or_update_sectors connectFresh [techName]).bind
        (fun s1 => insert_or_update_sectors s1 [techName]) ≠
      insert_or_update_sectors connectFresh [techName] := by
  decide

/-- C5, amended: running the same non-empty name batch twice leaves the
NAME COLUMN of the sector table exactly as after one run (the surrogate
ids are reassigned by the REPLACE), and after the second run each
upserted name labels exactly one sector row. -/
theorem C5_sector_upsert_idempotent_names (st : DB) (names : List PyStr) (s1 s2 : DB)
    (h1 : insert_or_update_sectors st names = .ok s1)
    (h2 : insert_or_update_sectors s1 names = .ok s2) :
    sectorNames s2 = sectorNames s1 ∧
      (∀ n, memB n names = true → countName s2 n = 1) := by
  have hne : names ≠ [] := by
    intro he
    subst he
    rw [show insert_or_update_sectors st [] = .error .indexError from rfl] at h1
    cases h1
  rw [insert_or_update_sectors_eq st names hne] at h1
  have hs1 : s1 = names.foldl sectorReplace st := (Except.ok.inj h1).symm
  subst hs1
  rw [insert_or_update_sectors_eq _ names hne] at h2
  have hs2 : s2 = names.foldl sectorReplace (names.foldl sectorReplace st) :=
    (Except.ok.inj h2).symm
  subst hs2
  constructor
  · rw [sectorNames_foldl, sectorNames_foldl, List.filter_append, List.filter_filter]
    have hself : (fun a => !(memB a names) && !(memB a names)) = (fun a => !(memB a names)) := by
      funext a
      exact Bool.and_self _
    rw [hself, filter_notmem_dlast]
    simp
  · intro n hn
    rw [countName_eq, sectorNames_foldl, List.filter_append, List.length_append]
    rw [filter_name_in_filtered _ names n hn]
    simp [count_dlast_one names n hn]

/-- C5, witness: upserting `["Technology"]` twice from a fresh store —
the name column matches a single call and exactly one row is named
"Technology" (while the counterexample shows the surrogate id moved
from 1 to 2). -/
theorem C5_sector_upsert_idempotent_names_witness :
    sectorNames dbTech2 = sectorNames dbTech ∧ countName dbTech2 techName = 1 := by
  have h := C5_sector_upsert_idempotent_names connectFresh [techName] dbTech dbTech2
    (by decide) (by decide)
  exact ⟨h.1, h.2 techName (by decide)⟩

/-- C2: on the claim's example record `{symbol: "ABC", name: "Abc Inc",
pe_ratio: 10.0}`, `insert_or_update_stats` raises KeyError before
writing anything — `insert_or_update_symbols` collapses its list
argument with `dict(...)` into a single string-keyed mapping and then
subscripts it with the integer 0 — so neither the Symbol row nor the
Stats row the claim promises is ever created. -/
theorem C2_stats_upsert_crashes :
    insert_or_update_stats connectFresh [statsRecABC] = .error .keyError := by
  decide

/-- C3: on a store holding the two sectors Technology and Energy,
`get_sectors` returns only the FIRST row of the name projection (it goes
through `_select_row`, which returns `rows[0]`), not the name of every
row; and `get_industries` on the empty industry table raises IndexError
instead of returning the empty projection. -/
theorem C3_first_row_only :
    insert_or_update_sectors connectFresh [techName, energyName] = .ok dbTE ∧
    sectorNames dbTE = [techName, energyName] ∧
    get_sectors dbTE = .ok [PyVal.vstr techName] ∧
    get_sectors dbTE ≠ .ok ((sectorNames dbTE).map PyVal.vstr) ∧
    get_industries dbTE = .error .indexError := by
  decide

/-- C6: even with the sector "Technology" present,
`insert_or_update_industries([("Software", "Technology")])` raises
ValueError — the source iterates `for i, s in industry_sectors` over the
dict itself (its keys) instead of `.items()`, and unpacking the
eight-character key "Software" into two variables fails — so the call
never succeeds and never reaches the sector-id lookup; without the
sector it fails the same way, not with the lookup failure
(`ReferentNotFound`/IndexError) the claim describes. -/
theorem C6_industry_upsert_crashes :
    insert_or_update_sectors connectFresh [techName] = .ok dbTech ∧
    insert_or_update_industries dbTech [(softwareName, techName)] = .error .valueError ∧
    insert_or_update_industries connectFresh [(softwareName, techName)] = .error .valueError := by
  decide

/-- C9: every public upsert applied to the empty batch raises an
unhandled subscripting error instead of succeeding as a no-op: sectors
and industries hit `list_of_dicts[0]` (IndexError) when deriving the
column list, while symbols and stats hit `symbol_dicts[0]` on the
dict-converted batch (KeyError) before any write. -/
theorem C9_empty_batches (st : DB) :
    insert_or_update_sectors st [] = .error .indexError ∧
    insert_or_update_industries st [] = .error .indexError ∧
    insert_or_update_symbols st [] = .error .keyError ∧
    insert_or_update_stats st [] = .error .keyError :=
  ⟨rfl, rfl, rfl, rfl⟩
